import Mathlib

/-!
Shallow embedding of the Reservation and Idempotent Fulfillment Engine of the
AppBot repository (files `db_manager.py` and `bot.py`).

Timestamps are modelled as integers (`Int`), on the scale of minutes: the
Python code compares naive `datetime` values with `<` / `>` and adds
`timedelta(minutes=m)`, which the embedding renders as integer comparison and
integer addition.  The database is a list of `Beat` rows; SQLAlchemy's
`query(...).first()` is `List.find?` (first row in physical order) and an
update to the object returned by `first()` is an update of the first matching
position (`updateFirst` below).  User facing Italian message strings are kept
only in abbreviated ASCII form; no claim depends on their exact text.
-/

/-- Row of the `beats` table: the columns used by the reservation engine. -/
structure Beat where
  id : Nat
  title : String
  file_key : String
  is_exclusive : Nat
  reserved_by_user_id : Option Int
  reserved_at : Option Int
  reservation_expires_at : Option Int
deriving DecidableEq

/-- Row of the `orders` table: the columns read by the availability checks. -/
structure Order where
  transaction_id : String
  beat_title : String
  order_type : String
  bundle_id : Option Nat
  created_at : Int
deriving DecidableEq

/-- Row of the `bundles` table (fields used by the engine). -/
structure Bundle where
  id : Nat
  name : String
  is_active : Nat
deriving DecidableEq

/-- Row of the `bundle_beats` association table. -/
structure BundleBeat where
  bundle_id : Nat
  beat_id : Nat
deriving DecidableEq

/-- The beats table, in physical row order. -/
abbrev DB := List Beat

/-- `query(Beat).filter(Beat.id == beat_id).first()`. -/
def findById (db : DB) (beat_id : Nat) : Option Beat :=
  db.find? (fun b => b.id == beat_id)

/-- Mutation of the single row object returned by a `.first()` query:
updates the first row satisfying `p`, leaving every other row unchanged. -/
def updateFirst (p : Beat → Bool) (f : Beat → Beat) : DB → DB
  | [] => []
  | b :: rest => if p b then f b :: rest else b :: updateFirst p f rest

/-- Setting `reserved_by_user_id`, `reserved_at`, `reservation_expires_at`
to `None` (the clearing pattern repeated throughout `db_manager.py`). -/
def clearFields (b : Beat) : Beat :=
  { b with reserved_by_user_id := none, reserved_at := none,
           reservation_expires_at := none }

/-- Writing a fresh reservation for `user_id` at time `now` with a
`reservation_minutes` TTL (lines 202-204 of `db_manager.py`). -/
def setReservation (user_id : Int) (now m : Int) (b : Beat) : Beat :=
  { b with reserved_by_user_id := some user_id, reserved_at := some now,
           reservation_expires_at := some (now + m) }

/-- Predicate of the existing-reservation query
`filter(Beat.reserved_by_user_id == user_id, Beat.reservation_expires_at.isnot(None))`. -/
def userResQ (user_id : Int) (b : Beat) : Bool :=
  b.reserved_by_user_id == some user_id && b.reservation_expires_at.isSome

/-- Renewal write of `reserve_exclusive_beat` (`db_manager.py` lines
165-166): the timer columns are reset, the holder column is untouched. -/
def renewRes (now m : Int) (b : Beat) : Beat :=
  { b with reserved_at := some now,
           reservation_expires_at := some (now + m) }

/-- Second half of `reserve_exclusive_beat` (`db_manager.py` lines 183-207):
the check on the target row's own reservation followed by the write. -/
def finishReserve (db : DB) (beat_id : Nat) (user_id : Int) (m now : Int) :
    Bool × DB :=
  match findById db beat_id with
  | none => (false, db)
  | some beat =>
    match beat.reserved_by_user_id, beat.reservation_expires_at with
    | some r, some e =>
      if now < e then
        if r != user_id then (false, db)
        else (true, updateFirst (fun b => b.id == beat_id)
                      (setReservation user_id now m) db)
      else
        (true, updateFirst (fun b => b.id == beat_id)
                 (setReservation user_id now m)
                 (updateFirst (fun b => b.id == beat_id) clearFields db))
    | _, _ => (true, updateFirst (fun b => b.id == beat_id)
                       (setReservation user_id now m) db)

/-- `reserve_exclusive_beat(beat_id, user_id, reservation_minutes)` run at
time `now` (`db_manager.py` lines 132-207).  Returns the boolean result and
the database after the call. -/
def reserve_exclusive_beat (db : DB) (beat_id : Nat) (user_id : Int)
    (m now : Int) : Bool × DB :=
  match findById db beat_id with
  | none => (false, db)
  | some beat0 =>
    if beat0.is_exclusive != 1 then (false, db)
    else
      match db.find? (userResQ user_id) with
      | some ex =>
        match ex.reservation_expires_at with
        | some e =>
          if now < e then
            if ex.id == beat_id then
              (true, updateFirst (userResQ user_id) (renewRes now m) db)
            else (false, db)
          else
            finishReserve (updateFirst (userResQ user_id) clearFields db)
              beat_id user_id m now
        | none => finishReserve db beat_id user_id m now
      | none => finishReserve db beat_id user_id m now

/-- `release_beat_reservation(beat_id, user_id)` (`db_manager.py` lines
209-229).  `user_id = none` is the `user_id=None` default. -/
def release_beat_reservation (db : DB) (beat_id : Nat)
    (user_id : Option Int) : Bool × DB :=
  match findById db beat_id with
  | none => (false, db)
  | some beat =>
    match user_id with
    | some u =>
      if beat.reserved_by_user_id != some u then (false, db)
      else (true, updateFirst (fun b => b.id == beat_id) clearFields db)
    | none => (true, updateFirst (fun b => b.id == beat_id) clearFields db)

/-- Predicate of the rows cleared by `cleanup_expired_reservations`: a row
with both reservation columns set whose expiry is strictly before `now`
(`db_manager.py` lines 241-253, note the strict `expires_at < now`). -/
def expiredQ (now : Int) (b : Beat) : Bool :=
  b.reserved_by_user_id.isSome && b.reservation_expires_at.isSome &&
    match b.reservation_expires_at with
    | some e => e < now
    | none => false

/-- `cleanup_expired_reservations()` run at time `now` (`db_manager.py`
lines 231-261): clears every expired row and returns the count. -/
def cleanup_expired_reservations (db : DB) (now : Int) : Nat × DB :=
  (db.countP (expiredQ now),
   db.map (fun b => if expiredQ now b then clearFields b else b))

/-- The comparison `reservation_expires_at > now` on an optional expiry
column: false when the column is `NULL`. -/
def stillActive (now : Int) : Option Int → Bool
  | some e => now < e
  | none => false

/-- Membership and recent-order test of the bundle purchase window: an
active bundle containing the beat has an order of type `bundle` created in
the last 15 minutes (`db_manager.py` lines 297-317). -/
def bundleWindowHit (orders : List Order) (bundles : List Bundle)
    (bundleBeats : List BundleBeat) (beat_id : Nat) (now : Int) : Bool :=
  (bundles.filter (fun bu =>
      bundleBeats.any (fun bb => bb.bundle_id == bu.id && bb.beat_id == beat_id)
        && bu.is_active == 1)).any
    (fun bu => orders.any (fun o =>
      o.bundle_id == some bu.id && o.order_type == "bundle" &&
        now - 15 ≤ o.created_at))

/-- Test of the sold check: a completed order of type `beat` references the
beat's title (`db_manager.py` lines 290-295). -/
def soldHit (orders : List Order) (title : String) : Bool :=
  orders.any (fun o => o.beat_title == title && o.order_type == "beat")

/-- `is_beat_available(beat_id)` run at time `now`
(`db_manager.py` lines 263-319). -/
def is_beat_available (db : DB) (orders : List Order) (bundles : List Bundle)
    (bundleBeats : List BundleBeat) (beat_id : Nat) (now : Int) : Bool :=
  match findById db beat_id with
  | none => false
  | some beat =>
    if beat.is_exclusive != 1 then true
    else if beat.reserved_by_user_id.isSome &&
        stillActive now beat.reservation_expires_at then false
    else if soldHit orders beat.title then false
    else if bundleWindowHit orders bundles bundleBeats beat_id now then false
    else true

/-- Reason component of `get_beat_availability_status`; the Italian message
strings of the source are abstracted into constructors (the reserved case
carries the computed minutes left, the bundle case the bundle name). -/
inductive AvailReason
  | notFound
  | available
  | reservedByOther (minutes_left : Int)
  | alreadySold
  | bundleInPurchase (name : String)
deriving DecidableEq

/-- `get_beat_availability_status(beat_id)` run at time `now`
(`db_manager.py` lines 569-624). -/
def get_beat_availability_status (db : DB) (orders : List Order)
    (bundles : List Bundle) (bundleBeats : List BundleBeat) (beat_id : Nat)
    (now : Int) : Bool × AvailReason :=
  match findById db beat_id with
  | none => (false, .notFound)
  | some beat =>
    if beat.is_exclusive != 1 then (true, .available)
    else if beat.reserved_by_user_id.isSome &&
        stillActive now beat.reservation_expires_at then
      (false, .reservedByOther ((beat.reservation_expires_at.getD 0) - now))
    else if soldHit orders beat.title then (false, .alreadySold)
    else
      match (bundles.filter (fun bu =>
          bundleBeats.any (fun bb => bb.bundle_id == bu.id && bb.beat_id == beat_id)
            && bu.is_active == 1)).find?
          (fun bu => orders.any (fun o =>
            o.bundle_id == some bu.id && o.order_type == "bundle" &&
              now - 15 ≤ o.created_at)) with
      | some bu => (false, .bundleInPurchase bu.name)
      | none => (true, .available)

/-- Predicate of the join `query(Beat).join(BundleBeat).filter(
BundleBeat.bundle_id == bundle_id, Beat.is_exclusive == 1)`
(`db_manager.py` lines 746-749). -/
def exclusiveMemberQ (bundleBeats : List BundleBeat) (bundle_id : Nat)
    (b : Beat) : Bool :=
  bundleBeats.any (fun bb => bb.bundle_id == bundle_id && bb.beat_id == b.id)
    && b.is_exclusive == 1

/-- Test of lines 774-782 of `db_manager.py`: the member is reserved by a
different user and that reservation has not expired. -/
def bundleUnavailQ (user_id : Int) (now : Int) (b : Beat) : Bool :=
  b.reserved_by_user_id.isSome && b.reserved_by_user_id != some user_id &&
    b.reservation_expires_at.isSome &&
    stillActive now b.reservation_expires_at

/-- Availability scan plus the bulk write of
`reserve_bundle_exclusive_beats` (`db_manager.py` lines 770-797). -/
def finishBundleReserve (db : DB) (bundleBeats : List BundleBeat)
    (bundle_id : Nat) (user_id : Int) (m now : Int) : (Bool × String) × DB :=
  let exclusive_beats := db.filter (exclusiveMemberQ bundleBeats bundle_id)
  let unavailable := (exclusive_beats.filter (bundleUnavailQ user_id now)).map
    (fun b => b.title)
  if !unavailable.isEmpty then
    ((false, "Beat gia prenotati: " ++ String.intercalate ", " unavailable), db)
  else
    ((true, "Bundle prenotato"),
     db.map (fun b => if exclusiveMemberQ bundleBeats bundle_id b then
       setReservation user_id now m b else b))

/-- `reserve_bundle_exclusive_beats(bundle_id, user_id, reservation_minutes)`
run at time `now` (`db_manager.py` lines 732-797). -/
def reserve_bundle_exclusive_beats (db : DB) (bundles : List Bundle)
    (bundleBeats : List BundleBeat) (bundle_id : Nat) (user_id : Int)
    (m now : Int) : (Bool × String) × DB :=
  match bundles.find? (fun bu => bu.id == bundle_id) with
  | none => ((false, "Bundle non trovato"), db)
  | some _ =>
    if (db.filter (exclusiveMemberQ bundleBeats bundle_id)).isEmpty then
      ((true, "Nessun beat esclusivo nel bundle"), db)
    else
      match db.find? (userResQ user_id) with
      | some ex =>
        if stillActive now ex.reservation_expires_at then
          ((false, "Hai gia una prenotazione attiva"), db)
        else finishBundleReserve db bundleBeats bundle_id user_id m now
      | none => finishBundleReserve db bundleBeats bundle_id user_id m now

/-- Outcome of the `/internal/send_message` idempotency layer: either the
transaction was rejected as already processed, or the call proceeded into
`send_beat_to_user`. -/
inductive EndpointOutcome
  | alreadyProcessed
  | proceeded
deriving DecidableEq

/-- Python truthiness of the `transaction_id` field: `None` and the empty
string are falsy (`if transaction_id:` in `bot.py` line 223). -/
def truthyTid : Option String → Bool
  | none => false
  | some t => t != ""

/-- Idempotency layer of `send_message_endpoint` (`bot.py` lines 205-256):
the `_processed_transactions_cache` is a map from transaction id to the time
it was first seen.  On a truthy transaction id the endpoint evicts entries
older than 1800 seconds, rejects the call if the id is still present, and
otherwise records the id and proceeds into delivery. -/
def send_message_endpoint_dedup (cache : List (String × Int))
    (tid : Option String) (now : Int) : EndpointOutcome × List (String × Int) :=
  match tid with
  | none => (.proceeded, cache)
  | some t =>
    if t == "" then (.proceeded, cache)
    else
      let cache1 := cache.filter (fun kv => now - kv.2 < 1800)
      if cache1.any (fun kv => kv.1 == t) then (.alreadyProcessed, cache1)
      else (.proceeded, (t, now) :: cache1)

/-- Delivery loop of `send_beat_to_user` (`bot.py` lines 364-478): each beat
in turn is attempted; success or failure of the external download-and-send
step is abstracted by the oracle `deliver`.  A failed beat is recorded and
the loop continues; a delivered exclusive beat has its reservation released
through `release_beat_reservation(beat.id, user_id)`.  Returns the success
count, the failed titles, and the database after the loop. -/
def sendBeats (user_id : Int) (deliver : Beat → Bool) :
    List Beat → DB → (Nat × List String) × DB
  | [], db => ((0, []), db)
  | b :: rest, db =>
    if deliver b then
      let db1 := if b.is_exclusive == 1 then
        (release_beat_reservation db b.id (some user_id)).2 else db
      let r := sendBeats user_id deliver rest db1
      ((r.1.1 + 1, r.1.2), r.2)
    else
      let r := sendBeats user_id deliver rest db
      ((r.1.1, b.title :: r.1.2), r.2)

/-- Result classification of `send_beat_to_user` (`bot.py` lines 545-557):
`"error"` when nothing was delivered, `"partial"` when some but not all
beats were delivered, `"ok"` when every beat was delivered.  `beats` is the
list of beats fetched for the order (single beat or all bundle members). -/
def send_beat_to_user (db : DB) (user_id : Int) (beats : List Beat)
    (deliver : Beat → Bool) : String × DB :=
  let r := sendBeats user_id deliver beats db
  if r.1.1 == 0 then ("error", r.2)
  else if r.1.1 < beats.length then ("partial", r.2)
  else ("ok", r.2)

/-! General lemmas about `updateFirst`, `find?` and `countP`. -/

/-- Reduction of `updateFirst` on a matching head. -/
theorem updateFirst_cons_pos {p : Beat → Bool} {f : Beat → Beat} {b : Beat}
    {l : DB} (h : p b = true) : updateFirst p f (b :: l) = f b :: l := by
  simp [updateFirst, h]

/-- Reduction of `updateFirst` on a non-matching head. -/
theorem updateFirst_cons_neg {p : Beat → Bool} {f : Beat → Beat} {b : Beat}
    {l : DB} (h : p b = false) :
    updateFirst p f (b :: l) = b :: updateFirst p f l := by
  simp [updateFirst, h]

/-- A lookup is unaffected by an `updateFirst` whose touched row cannot
match the lookup predicate. -/
theorem find?_updateFirst_of_ne (p q : Beat → Bool) (f : Beat → Beat)
    (l : DB) (hq : ∀ x, q (f x) = q x)
    (hpq : ∀ x ∈ l, p x = true → q x = false) :
    (updateFirst p f l).find? q = l.find? q := by
  induction l with
  | nil => rfl
  | cons b rest ih =>
    by_cases hp : p b = true
    · have hqb : q b = false := hpq b (List.mem_cons_self b rest) hp
      rw [updateFirst_cons_pos hp,
          List.find?_cons_of_neg _ (by simp [hq, hqb]),
          List.find?_cons_of_neg _ (by simp [hqb])]
    · rw [updateFirst_cons_neg (eq_false_of_ne_true hp)]
      by_cases hqb : q b = true
      · rw [List.find?_cons_of_pos _ hqb, List.find?_cons_of_pos _ hqb]
      · rw [List.find?_cons_of_neg _ hqb,
            List.find?_cons_of_neg _ hqb,
            ih (fun x hx => hpq x (List.mem_cons_of_mem b hx))]

/-- Looking up with the same predicate that `updateFirst` used returns the
updated row (when `f` does not disturb the predicate). -/
theorem find?_updateFirst_self (q : Beat → Bool) (f : Beat → Beat) (l : DB)
    (hq : ∀ x, q (f x) = q x) :
    (updateFirst q f l).find? q = (l.find? q).map f := by
  induction l with
  | nil => rfl
  | cons b rest ih =>
    by_cases hqb : q b = true
    · rw [updateFirst_cons_pos hqb,
          List.find?_cons_of_pos _ (by simp [hq, hqb]),
          List.find?_cons_of_pos _ hqb]
      rfl
    · rw [updateFirst_cons_neg (eq_false_of_ne_true hqb),
          List.find?_cons_of_neg _ hqb, List.find?_cons_of_neg _ hqb, ih]

/-- The count of rows satisfying `q` is unchanged by an update that does
not disturb `q`. -/
theorem countP_updateFirst_of_stable (p q : Beat → Bool) (f : Beat → Beat)
    (l : DB) (hq : ∀ x, q (f x) = q x) :
    (updateFirst p f l).countP q = l.countP q := by
  induction l with
  | nil => rfl
  | cons b rest ih =>
    by_cases hp : p b = true
    · rw [updateFirst_cons_pos hp, List.countP_cons, List.countP_cons, hq]
    · rw [updateFirst_cons_neg (eq_false_of_ne_true hp),
          List.countP_cons, List.countP_cons, ih]

/-- An update that can only falsify `q` does not increase the count. -/
theorem countP_updateFirst_of_kills (p q : Beat → Bool) (f : Beat → Beat)
    (l : DB) (hq : ∀ x, q (f x) = false) :
    (updateFirst p f l).countP q ≤ l.countP q := by
  induction l with
  | nil => exact Nat.le_refl _
  | cons b rest ih =>
    by_cases hp : p b = true
    · rw [updateFirst_cons_pos hp, List.countP_cons, List.countP_cons, hq]
      simp
    · rw [updateFirst_cons_neg (eq_false_of_ne_true hp),
          List.countP_cons, List.countP_cons]
      omega

/-- Any single-row update increases the count by at most one. -/
theorem countP_updateFirst_le_succ (p q : Beat → Bool) (f : Beat → Beat)
    (l : DB) :
    (updateFirst p f l).countP q ≤ l.countP q + 1 := by
  induction l with
  | nil => simp [updateFirst]
  | cons b rest ih =>
    by_cases hp : p b = true
    · rw [updateFirst_cons_pos hp, List.countP_cons, List.countP_cons]
      split_ifs
      all_goals omega
    · rw [updateFirst_cons_neg (eq_false_of_ne_true hp),
          List.countP_cons, List.countP_cons]
      omega

/-- If at most one row satisfies `q`, the predicates agree on the rows of
`l`, and `f` falsifies `q`, then no row satisfies `q` after the update. -/
theorem countP_updateFirst_eq_zero (p q : Beat → Bool) (f : Beat → Beat)
    (l : DB) (hpq : ∀ x ∈ l, p x = q x) (hq : ∀ x, q (f x) = false)
    (hle : l.countP q ≤ 1) :
    (updateFirst p f l).countP q = 0 := by
  induction l with
  | nil => rfl
  | cons b rest ih =>
    have hhead := hpq b (List.mem_cons_self b rest)
    by_cases hb : q b = true
    · have hp : p b = true := by rw [hhead, hb]
      have hrest : rest.countP q = 0 := by
        rw [List.countP_cons_of_pos _ _ hb] at hle
        omega
      rw [updateFirst_cons_pos hp, List.countP_cons, hq]
      simpa using hrest
    · have hp : p b = false := by
        rw [hhead]
        exact eq_false_of_ne_true hb
      rw [List.countP_cons_of_neg _ _ (by simp [hb])] at hle
      rw [updateFirst_cons_neg hp,
          List.countP_cons_of_neg _ _ (by simp [hb])]
      exact ih (fun x hx => hpq x (List.mem_cons_of_mem b hx)) hle

/-- Looking up by the identifier of a row of a duplicate-free table after a
row-wise map that preserves identifiers returns the image of that row. -/
theorem findById_map_of_mem (db : DB) (g : Beat → Beat)
    (hg : ∀ x, (g x).id = x.id) (b : Beat) (hmem : b ∈ db)
    (hids : (db.map Beat.id).Nodup) :
    findById (db.map g) b.id = some (g b) := by
  induction db with
  | nil => cases hmem
  | cons x rest ih =>
    rcases List.mem_cons.1 hmem with rfl | hmem'
    · unfold findById
      rw [List.map_cons, List.find?_cons_of_pos _ (by simp [hg])]
    · have hx : x.id ≠ b.id := by
        intro h
        have : b.id ∈ rest.map Beat.id := List.mem_map_of_mem Beat.id hmem'
        rw [List.map_cons, List.nodup_cons] at hids
        exact hids.1 (h ▸ this)
      unfold findById
      rw [List.map_cons, List.find?_cons_of_neg _ (by simp [hg, hx])]
      exact ih hmem' (by rw [List.map_cons, List.nodup_cons] at hids; exact hids.2)

/-! Claim C7: single-item acquire on a non-exclusive item. -/

/-- C7 counterexample: for an existing non-exclusive beat the single-item
acquire returns the failure result `false`, not the success result the claim
predicts. -/
theorem c7_nonexclusive_acquire_fails_concretely :
    (reserve_exclusive_beat
      [⟨1, "A", "a.wav", 0, none, none, none⟩] 1 7 10 0).1 = false := by
  decide

/-- C7 (amended): for every existing non-exclusive item, the single-item
acquire operation returns the failure result `false` and performs no state
change on any reservation field. -/
theorem c7_nonexclusive_acquire_denies_no_change (db : DB) (beat_id : Nat)
    (user_id : Int) (m now : Int) (b : Beat)
    (hb : findById db beat_id = some b) (hx : b.is_exclusive ≠ 1) :
    reserve_exclusive_beat db beat_id user_id m now = (false, db) := by
  unfold reserve_exclusive_beat
  rw [hb]
  simp [bne_iff_ne, hx]

/-- C7 witness: the amended theorem applied to a one-row table holding a
non-exclusive beat. -/
theorem c7_nonexclusive_acquire_denies_no_change_witness :
    reserve_exclusive_beat [⟨1, "A", "a.wav", 0, none, none, none⟩] 1 7 10 0 =
      (false, [⟨1, "A", "a.wav", 0, none, none, none⟩]) :=
  c7_nonexclusive_acquire_denies_no_change _ 1 7 10 0
    ⟨1, "A", "a.wav", 0, none, none, none⟩ (by decide) (by decide)

/-! Claim C9: the expiry sweep. -/

/-- C9 counterexample: a reservation whose expiry equals the sweep time
(`expires_at <= now` but not `expires_at < now`) is not cleared by
`cleanup_expired_reservations`, so its fields are not all null afterwards. -/
theorem c9_sweep_misses_boundary_expiry :
    (cleanup_expired_reservations
        [⟨1, "A", "a.wav", 1, some 42, some 0, some 5⟩] 5).2 =
      [⟨1, "A", "a.wav", 1, some 42, some 0, some 5⟩] ∧
    (5 : Int) ≤ 5 := by
  constructor
  · decide
  · decide

/-- C9 (amended): one sweeper pass clears exactly the reservations with
`expires_at` strictly less than `now`: such a row has all three reservation
fields null afterwards, and every other row (including one whose reservation
expires exactly at `now` or later) is unchanged. -/
theorem c9_sweep_clears_strictly_expired (db : DB) (now : Int) (b : Beat)
    (hmem : b ∈ db) (hids : (db.map Beat.id).Nodup) :
    (expiredQ now b = true →
      findById (cleanup_expired_reservations db now).2 b.id =
        some (clearFields b)) ∧
    (expiredQ now b = false →
      findById (cleanup_expired_reservations db now).2 b.id = some b) := by
  have hg : ∀ x : Beat,
      ((if expiredQ now x then clearFields x else x)).id = x.id := by
    intro x
    by_cases hx : expiredQ now x = true
    · simp [hx, clearFields]
    · simp [hx]
  have hfind := findById_map_of_mem db
    (fun x => if expiredQ now x then clearFields x else x) hg b hmem hids
  constructor
  · intro hexp
    rw [cleanup_expired_reservations, hfind]
    simp [hexp]
  · intro hexp
    rw [cleanup_expired_reservations, hfind]
    simp [hexp]

/-- C9 witness: the amended theorem applied to a two-row table, one row
strictly expired and one active. -/
theorem c9_sweep_clears_strictly_expired_witness :
    ((expiredQ 5 ⟨1, "A", "a.wav", 1, some 42, some 0, some 3⟩ = true →
      findById (cleanup_expired_reservations
          [⟨1, "A", "a.wav", 1, some 42, some 0, some 3⟩,
           ⟨2, "C", "c.wav", 1, some 7, some 0, some 9⟩] 5).2 1 =
        some (clearFields ⟨1, "A", "a.wav", 1, some 42, some 0, some 3⟩)) ∧
    (expiredQ 5 ⟨1, "A", "a.wav", 1, some 42, some 0, some 3⟩ = false →
      findById (cleanup_expired_reservations
          [⟨1, "A", "a.wav", 1, some 42, some 0, some 3⟩,
           ⟨2, "C", "c.wav", 1, some 7, some 0, some 9⟩] 5).2 1 =
        some ⟨1, "A", "a.wav", 1, some 42, some 0, some 3⟩)) :=
  c9_sweep_clears_strictly_expired
    [⟨1, "A", "a.wav", 1, some 42, some 0, some 3⟩,
     ⟨2, "C", "c.wav", 1, some 7, some 0, some 9⟩] 5
    ⟨1, "A", "a.wav", 1, some 42, some 0, some 3⟩
    (by decide) (by decide)

/-! Claim C3: bundle acquisition is all-or-nothing. -/

/-- Setting a reservation does not change a row's identifier or exclusivity,
so bundle membership of the row is unaffected. -/
theorem exclusiveMemberQ_setReservation (bundleBeats : List BundleBeat)
    (bundle_id : Nat) (user_id now m : Int) (b : Beat) :
    exclusiveMemberQ bundleBeats bundle_id (setReservation user_id now m b) =
      exclusiveMemberQ bundleBeats bundle_id b := rfl

/-- The write phase of the bundle coordinator either leaves the table
untouched or stamps a fresh reservation on every exclusive member. -/
theorem finishBundleReserve_all_or_nothing (db : DB)
    (bundleBeats : List BundleBeat) (bundle_id : Nat) (user_id : Int)
    (m now : Int) :
    (∀ b ∈ (finishBundleReserve db bundleBeats bundle_id user_id m now).2,
        exclusiveMemberQ bundleBeats bundle_id b = true →
        b.reserved_by_user_id = some user_id ∧ b.reserved_at = some now ∧
          b.reservation_expires_at = some (now + m)) ∨
    (finishBundleReserve db bundleBeats bundle_id user_id m now).2 = db := by
  unfold finishBundleReserve
  dsimp only
  split
  · right
    rfl
  · left
    intro b hb hQ
    rcases List.mem_map.1 hb with ⟨a, _, rfl⟩
    by_cases hQa : exclusiveMemberQ bundleBeats bundle_id a = true
    · simp [hQa, setReservation]
    · rw [if_neg hQa] at hQ
      exact absurd hQ hQa

/-- C3 (confirmed): bundle acquisition is all-or-nothing: after any call to
`reserve_bundle_exclusive_beats`, either every exclusive member of the
bundle carries a fresh reservation for the caller (`reserved_by_user_id`
equal to the caller, `reserved_at = now`, `expires_at = now + ttl`), or the
whole table is exactly as it was before the call. -/
theorem c3_bundle_reserve_all_or_nothing (db : DB) (bundles : List Bundle)
    (bundleBeats : List BundleBeat) (bundle_id : Nat) (user_id : Int)
    (m now : Int) :
    (∀ b ∈ (reserve_bundle_exclusive_beats db bundles bundleBeats bundle_id
        user_id m now).2,
        exclusiveMemberQ bundleBeats bundle_id b = true →
        b.reserved_by_user_id = some user_id ∧ b.reserved_at = some now ∧
          b.reservation_expires_at = some (now + m)) ∨
    (reserve_bundle_exclusive_beats db bundles bundleBeats bundle_id user_id
        m now).2 = db := by
  unfold reserve_bundle_exclusive_beats
  cases hfb : bundles.find? (fun bu => bu.id == bundle_id) with
  | none => right; rfl
  | some bu =>
    by_cases hempty :
        (db.filter (exclusiveMemberQ bundleBeats bundle_id)).isEmpty = true
    · right
      simp [hempty]
    · simp only [hempty, Bool.false_eq_true, if_false]
      cases hex : db.find? (userResQ user_id) with
      | some ex =>
        by_cases hact : stillActive now ex.reservation_expires_at = true
        · right
          simp [hact]
        · simp only [hact, Bool.false_eq_true, if_false]
          exact finishBundleReserve_all_or_nothing db bundleBeats bundle_id
            user_id m now
      | none =>
        exact finishBundleReserve_all_or_nothing db bundleBeats bundle_id
          user_id m now

/-! Claim C10: falsy transaction ids bypass the idempotency ledger. -/

/-- C10 (confirmed): a fulfillment trigger whose `transaction_id` is missing
or empty bypasses the idempotency ledger entirely: the call proceeds into
the delivery path and the ledger cache is neither read nor written, for any
cache state, so exact repeats run the full delivery path again. -/
theorem c10_falsy_tid_bypasses_ledger (cache : List (String × Int))
    (tid : Option String) (now : Int) (h : truthyTid tid = false) :
    send_message_endpoint_dedup cache tid now =
      (EndpointOutcome.proceeded, cache) := by
  cases tid with
  | none => rfl
  | some t =>
    have ht : t = "" := by simpa [truthyTid] using h
    subst ht
    rfl

/-- C10 witness: a repeat call with an absent transaction id proceeds and
leaves a nonempty ledger cache untouched. -/
theorem c10_falsy_tid_bypasses_ledger_witness :
    send_message_endpoint_dedup [("txn-1", 0)] none 5 =
      (EndpointOutcome.proceeded, [("txn-1", 0)]) :=
  c10_falsy_tid_bypasses_ledger [("txn-1", 0)] none 5 (by decide)

/-! Claim C4: fulfillment is idempotent per transaction id. -/

/-- C4 (confirmed): for a non-empty transaction id not yet in the ledger,
the first trigger proceeds into delivery, and a second trigger with the same
transaction id within the 30-minute (1800 second) retention window is
answered with the already-processed indicator and does not enter the
delivery path, so delivery happens exactly once. -/
theorem c4_endpoint_idempotent_within_window (c0 : List (String × Int))
    (t : String) (t1 t2 : Int) (ht : t ≠ "")
    (hnew : ∀ kv ∈ c0, kv.1 ≠ t) (hwin : t2 - t1 < 1800) :
    (send_message_endpoint_dedup c0 (some t) t1).1 =
      EndpointOutcome.proceeded ∧
    (send_message_endpoint_dedup
        (send_message_endpoint_dedup c0 (some t) t1).2 (some t) t2).1 =
      EndpointOutcome.alreadyProcessed := by
  have htb : (t == "") = false := beq_eq_false_iff_ne.2 ht
  have hany : (c0.filter (fun kv => t1 - kv.2 < 1800)).any
      (fun kv => kv.1 == t) = false := by
    rw [List.any_eq_false]
    intro kv hkv
    have hne := hnew kv (List.mem_of_mem_filter hkv)
    simp [hne]
  have hfirst : send_message_endpoint_dedup c0 (some t) t1 =
      (EndpointOutcome.proceeded,
        (t, t1) :: c0.filter (fun kv => t1 - kv.2 < 1800)) := by
    unfold send_message_endpoint_dedup
    simp [htb, hany]
  refine ⟨by rw [hfirst], ?_⟩
  rw [hfirst]
  unfold send_message_endpoint_dedup
  simp only [htb, Bool.false_eq_true, if_false]
  rw [List.filter_cons_of_pos (by simpa using hwin)]
  simp

/-- C4 witness: transaction id `"txn-9"` first seen at time 0 and repeated
at time 1200 seconds. -/
theorem c4_endpoint_idempotent_within_window_witness :
    (send_message_endpoint_dedup [] (some "txn-9") 0).1 =
      EndpointOutcome.proceeded ∧
    (send_message_endpoint_dedup
        (send_message_endpoint_dedup [] (some "txn-9") 0).2
        (some "txn-9") 1200).1 = EndpointOutcome.alreadyProcessed :=
  c4_endpoint_idempotent_within_window [] "txn-9" 0 1200 (by decide)
    (by simp) (by decide)

/-! Claim C5: an expired hold is invisible to the availability readers. -/

/-- C5 (confirmed): a reservation with `expires_at <= now` never makes a
beat unavailable: `is_beat_available` returns exactly what it would return
if the reservation were physically cleared, and
`get_beat_availability_status` never reports the reserved reason for it,
whether or not any sweep has run. -/
theorem c5_expired_hold_invisible (db : DB) (orders : List Order)
    (bundles : List Bundle) (bundleBeats : List BundleBeat) (beat_id : Nat)
    (now : Int) (b : Beat) (e : Int) (hb : findById db beat_id = some b)
    (he : b.reservation_expires_at = some e) (hle : e ≤ now) :
    is_beat_available db orders bundles bundleBeats beat_id now =
      is_beat_available (updateFirst (fun x => x.id == beat_id) clearFields db)
        orders bundles bundleBeats beat_id now ∧
    ∀ k, (get_beat_availability_status db orders bundles bundleBeats beat_id
        now).2 ≠ AvailReason.reservedByOther k := by
  have hact : stillActive now b.reservation_expires_at = false := by
    rw [he]
    simp only [stillActive, decide_eq_false_iff_not, not_lt]
    exact hle
  have hclear : findById
      (updateFirst (fun x => x.id == beat_id) clearFields db) beat_id =
      some (clearFields b) := by
    unfold findById
    rw [find?_updateFirst_self (fun x => x.id == beat_id) clearFields db
      (fun x => rfl)]
    unfold findById at hb
    rw [hb]
    rfl
  constructor
  · unfold is_beat_available
    rw [hb, hclear]
    simp [clearFields, hact]
  · intro k
    unfold get_beat_availability_status
    rw [hb]
    simp only [hact, Bool.and_false, Bool.false_eq_true, if_false]
    split
    · simp
    · split
      · simp
      · split
        · simp
        · simp

/-- C5 witness: a beat whose reservation expired at time 5, read at
time 10. -/
theorem c5_expired_hold_invisible_witness :
    (is_beat_available [⟨1, "A", "a.wav", 1, some 42, some 0, some 5⟩] [] []
        [] 1 10 =
      is_beat_available
        (updateFirst (fun x => x.id == 1) clearFields
          [⟨1, "A", "a.wav", 1, some 42, some 0, some 5⟩]) [] [] [] 1 10) ∧
    ∀ k, (get_beat_availability_status
        [⟨1, "A", "a.wav", 1, some 42, some 0, some 5⟩] [] [] [] 1 10).2 ≠
      AvailReason.reservedByOther k :=
  c5_expired_hold_invisible [⟨1, "A", "a.wav", 1, some 42, some 0, some 5⟩]
    [] [] [] 1 10 ⟨1, "A", "a.wav", 1, some 42, some 0, some 5⟩ 5
    (by decide) (by decide) (by decide)

/-! Claim C6: bundle acquisition by a holder with an existing hold. -/

/-- C6 counterexample: the scenario of the claim, with the bundle holding
exclusive beats A (id 1, held by user 5, unexpired) and C (id 2, free): the
claim predicts that `acquire_bundle` by user 5 renews and succeeds, but the
code denies it because user 5 already has an active reservation. -/
theorem c6_bundle_renewal_denied_concretely :
    (reserve_bundle_exclusive_beats
        [⟨1, "A", "a.wav", 1, some 5, some 0, some 10⟩,
         ⟨2, "C", "c.wav", 1, none, none, none⟩]
        [⟨1, "B1", 1⟩] [⟨1, 1⟩, ⟨1, 2⟩] 1 5 10 0).1.1 = false ∧
    (reserve_bundle_exclusive_beats
        [⟨1, "A", "a.wav", 1, some 5, some 0, some 10⟩,
         ⟨2, "C", "c.wav", 1, none, none, none⟩]
        [⟨1, "B1", 1⟩] [⟨1, 1⟩, ⟨1, 2⟩] 1 5 10 0).2 =
      [⟨1, "A", "a.wav", 1, some 5, some 0, some 10⟩,
       ⟨2, "C", "c.wav", 1, none, none, none⟩] := by
  constructor
  · decide
  · decide

/-- C6 (amended): when the caller already holds any active reservation
(even on a member of the target bundle), bundle acquisition on a bundle
with at least one exclusive member is always denied with the
already-holding message and performs no state change at all; in particular
the caller's pre-existing hold is left untouched on every denial. -/
theorem c6_bundle_acquire_denied_when_holding (db : DB)
    (bundles : List Bundle) (bundleBeats : List BundleBeat) (bundle_id : Nat)
    (user_id : Int) (m now : Int) (bu : Bundle)
    (hbu : bundles.find? (fun x => x.id == bundle_id) = some bu)
    (hne : (db.filter (exclusiveMemberQ bundleBeats bundle_id)).isEmpty =
      false)
    (hheld : ∃ b ∈ db, userResQ user_id b = true)
    (hactive : ∀ b ∈ db, userResQ user_id b = true →
      stillActive now b.reservation_expires_at = true) :
    reserve_bundle_exclusive_beats db bundles bundleBeats bundle_id user_id
        m now = ((false, "Hai gia una prenotazione attiva"), db) := by
  unfold reserve_bundle_exclusive_beats
  rw [hbu, hne]
  simp only [Bool.false_eq_true, if_false]
  cases hfind : db.find? (userResQ user_id) with
  | none =>
    rcases hheld with ⟨b, hmem, hq⟩
    exact absurd hq (by simpa using List.find?_eq_none.1 hfind b hmem)
  | some ex =>
    have hq := List.find?_some hfind
    have hmem := List.mem_of_find?_eq_some hfind
    simp [hactive ex hmem hq]

/-- C6 witness: the amended theorem applied to the claim's own scenario
(user 5 holds A, C free). -/
theorem c6_bundle_acquire_denied_when_holding_witness :
    reserve_bundle_exclusive_beats
        [⟨1, "A", "a.wav", 1, some 5, some 0, some 10⟩,
         ⟨2, "C", "c.wav", 1, none, none, none⟩]
        [⟨1, "B1", 1⟩] [⟨1, 1⟩, ⟨1, 2⟩] 1 5 10 0 =
      ((false, "Hai gia una prenotazione attiva"),
       [⟨1, "A", "a.wav", 1, some 5, some 0, some 10⟩,
        ⟨2, "C", "c.wav", 1, none, none, none⟩]) :=
  c6_bundle_acquire_denied_when_holding
    [⟨1, "A", "a.wav", 1, some 5, some 0, some 10⟩,
     ⟨2, "C", "c.wav", 1, none, none, none⟩]
    [⟨1, "B1", 1⟩] [⟨1, 1⟩, ⟨1, 2⟩] 1 5 10 0 ⟨1, "B1", 1⟩
    (by decide) (by decide)
    ⟨⟨1, "A", "a.wav", 1, some 5, some 0, some 10⟩, by decide, by decide⟩
    (by decide)

/-! Claim C1: at most one active hold per item. -/

/-- C1 (confirmed): if an item is reserved by `holder` with an unexpired
reservation, an acquire attempt by any other user on that item returns a
denial and leaves the item's row (all its reservation fields) unchanged. -/
theorem c1_acquire_on_held_item_denied (db : DB) (beat_id : Nat)
    (holder other : Int) (m now : Int) (b : Beat) (e : Int)
    (hids : (db.map Beat.id).Nodup)
    (hb : findById db beat_id = some b)
    (hres : b.reserved_by_user_id = some holder)
    (he : b.reservation_expires_at = some e) (hact : now < e)
    (hne : other ≠ holder) :
    (reserve_exclusive_beat db beat_id other m now).1 = false ∧
    findById (reserve_exclusive_beat db beat_id other m now).2 beat_id =
      some b := by
  have hmemb : b ∈ db := List.mem_of_find?_eq_some hb
  have hbid : b.id = beat_id := by
    have := List.find?_some hb
    simpa using this
  have hkey : ∀ x ∈ db, userResQ other x = true → (x.id == beat_id) = false := by
    intro x hx hqx
    unfold userResQ at hqx
    rw [Bool.and_eq_true] at hqx
    have hxres : x.reserved_by_user_id = some other := by
      simpa using hqx.1
    by_contra hcontra
    have hxid : x.id = beat_id := by
      have : (x.id == beat_id) = true := by
        cases hxb : (x.id == beat_id) with
        | false => exact absurd hxb hcontra
        | true => rfl
      simpa using this
    have hxb : x = b :=
      List.inj_on_of_nodup_map hids hx hmemb (by rw [hxid, hbid])
    rw [hxb, hres] at hxres
    exact hne (by injection hxres with h; exact h.symm)
  have hbne : (holder != other) = true := bne_iff_ne.2 (Ne.symm hne)
  unfold reserve_exclusive_beat
  rw [hb]
  dsimp only
  by_cases hx : (b.is_exclusive != 1) = true
  · simp [hx, hb]
  · simp only [hx, Bool.false_eq_true, if_false]
    cases hfind : db.find? (userResQ other) with
    | none =>
      dsimp only
      unfold finishReserve
      rw [hb]
      dsimp only
      rw [hres, he]
      dsimp only
      simp [hact, hbne, hb]
    | some ex =>
      have hqex := List.find?_some hfind
      have hmemex := List.mem_of_find?_eq_some hfind
      have hexid : (ex.id == beat_id) = false := hkey ex hmemex hqex
      dsimp only
      cases hexe : ex.reservation_expires_at with
      | none =>
        unfold userResQ at hqex
        rw [hexe] at hqex
        simp at hqex
      | some e2 =>
        dsimp only
        by_cases hlt : now < e2
        · simp [hlt, hexid, hb]
        · rw [if_neg hlt]
          have hdb1 : findById
              (updateFirst (userResQ other) clearFields db) beat_id =
              some b := by
            unfold findById
            rw [find?_updateFirst_of_ne (userResQ other)
              (fun x => x.id == beat_id) clearFields db (fun x => rfl) hkey]
            exact hb
          unfold finishReserve
          rw [hdb1]
          dsimp only
          rw [hres, he]
          dsimp only
          simp [hact, hbne, hdb1]

/-- C1 witness: beat 1 held by user 42 until time 10; user 7 attempts an
acquire at time 5 and is denied with the row unchanged. -/
theorem c1_acquire_on_held_item_denied_witness :
    (reserve_exclusive_beat
        [⟨1, "A", "a.wav", 1, some 42, some 0, some 10⟩] 1 7 10 5).1 =
      false ∧
    findById (reserve_exclusive_beat
        [⟨1, "A", "a.wav", 1, some 42, some 0, some 10⟩] 1 7 10 5).2 1 =
      some ⟨1, "A", "a.wav", 1, some 42, some 0, some 10⟩ :=
  c1_acquire_on_held_item_denied
    [⟨1, "A", "a.wav", 1, some 42, some 0, some 10⟩] 1 42 7 10 5
    ⟨1, "A", "a.wav", 1, some 42, some 0, some 10⟩ 10
    (by decide) (by decide) (by decide) (by decide) (by decide) (by decide)

/-! Claim C8: per-item delivery failures do not abort the batch. -/

/-- Releasing one beat's reservation does not affect the lookup of any
other identifier. -/
theorem release_find_other (db : DB) (beat_id : Nat) (u : Option Int)
    (i : Nat) (hne : beat_id ≠ i) :
    findById (release_beat_reservation db beat_id u).2 i = findById db i := by
  have hkey : ∀ x ∈ db, (x.id == beat_id) = true → (x.id == i) = false := by
    intro x _ hpx
    have hx : x.id = beat_id := by simpa using hpx
    simp [hx, hne]
  unfold release_beat_reservation
  cases h : findById db beat_id with
  | none => rfl
  | some beat =>
    dsimp only
    cases u with
    | some v =>
      by_cases hr : (beat.reserved_by_user_id != some v) = true
      · simp [hr]
      · simp only [hr, Bool.false_eq_true, if_false]
        unfold findById
        exact find?_updateFirst_of_ne _ _ _ _ (fun x => rfl) hkey
    | none =>
      unfold findById
      exact find?_updateFirst_of_ne _ _ _ _ (fun x => rfl) hkey

/-- Releasing with a matching holder clears exactly the target row. -/
theorem release_clears_own (db : DB) (beat_id : Nat) (u : Int) (c : Beat)
    (hc : findById db beat_id = some c)
    (hcu : c.reserved_by_user_id = some u) :
    findById (release_beat_reservation db beat_id (some u)).2 beat_id =
      some (clearFields c) := by
  unfold release_beat_reservation
  rw [hc]
  dsimp only
  have hr : (c.reserved_by_user_id != some u) = false := by simp [hcu]
  rw [hr]
  simp only [Bool.false_eq_true, if_false]
  unfold findById
  rw [find?_updateFirst_self (fun x => x.id == beat_id) clearFields db
    (fun x => rfl)]
  unfold findById at hc
  rw [hc]
  rfl

/-- The delivery loop attempts every beat: the success count equals the
number of beats the oracle delivers. -/
theorem sendBeats_count (user_id : Int) (deliver : Beat → Bool)
    (beats : List Beat) (db : DB) :
    (sendBeats user_id deliver beats db).1.1 = beats.countP deliver := by
  induction beats generalizing db with
  | nil => rfl
  | cons b rest ih =>
    unfold sendBeats
    by_cases hd : deliver b = true
    · simp [hd, List.countP_cons, ih]
    · simp [hd, List.countP_cons, ih]

/-- The delivery loop only writes to the rows of delivered exclusive beats:
any other identifier looks up unchanged. -/
theorem sendBeats_find_untouched (user_id : Int) (deliver : Beat → Bool)
    (beats : List Beat) (db : DB) (i : Nat)
    (h : ∀ b ∈ beats, deliver b = true → (b.is_exclusive == 1) = true →
      b.id ≠ i) :
    findById (sendBeats user_id deliver beats db).2 i = findById db i := by
  induction beats generalizing db with
  | nil => rfl
  | cons b rest ih =>
    have hrest : ∀ x ∈ rest, deliver x = true → (x.is_exclusive == 1) = true →
        x.id ≠ i := fun x hx => h x (List.mem_cons_of_mem b hx)
    unfold sendBeats
    by_cases hd : deliver b = true
    · by_cases hbex : (b.is_exclusive == 1) = true
      · have hbi : b.id ≠ i := h b (List.mem_cons_self b rest) hd hbex
        simp only [hd, if_true, hbex]
        rw [ih _ hrest]
        exact release_find_other db b.id (some user_id) i hbi
      · simp only [hd, if_true, hbex, Bool.false_eq_true, if_false]
        exact ih _ hrest
    · simp only [hd, Bool.false_eq_true, if_false]
      exact ih _ hrest

/-- A delivered exclusive beat held by the buyer has its row cleared by the
delivery loop. -/
theorem sendBeats_releases_delivered (user_id : Int) (deliver : Beat → Bool)
    (beats : List Beat) (db : DB) (b0 c : Beat)
    (hnd : (beats.map Beat.id).Nodup) (hmem : b0 ∈ beats)
    (hdel : deliver b0 = true) (hex : (b0.is_exclusive == 1) = true)
    (hc : findById db b0.id = some c)
    (hcu : c.reserved_by_user_id = some user_id) :
    findById (sendBeats user_id deliver beats db).2 b0.id =
      some (clearFields c) := by
  induction beats generalizing db with
  | nil => cases hmem
  | cons b rest ih =>
    rw [List.map_cons, List.nodup_cons] at hnd
    rcases List.mem_cons.1 hmem with rfl | hmem'
    · unfold sendBeats
      simp only [hdel, if_true, hex]
      have hrel := release_clears_own db b0.id user_id c hc hcu
      rw [sendBeats_find_untouched]
      · exact hrel
      · intro x hx _ _ hxi
        exact hnd.1 (hxi ▸ List.mem_map_of_mem Beat.id hx)
    · have hbne : b.id ≠ b0.id := by
        intro hcontra
        exact hnd.1 (hcontra ▸ List.mem_map_of_mem Beat.id hmem')
      unfold sendBeats
      by_cases hd : deliver b = true
      · by_cases hbex : (b.is_exclusive == 1) = true
        · simp only [hd, if_true, hbex]
          refine ih _ hnd.2 hmem' ?_
          rw [release_find_other db b.id (some user_id) b0.id hbne]
          exact hc
        · simp only [hd, if_true, hbex, Bool.false_eq_true, if_false]
          exact ih db hnd.2 hmem' hc
      · simp only [hd, Bool.false_eq_true, if_false]
        exact ih db hnd.2 hmem' hc

/-- The final result classification leaves the database component of the
loop untouched. -/
theorem send_beat_to_user_db (db : DB) (user_id : Int) (beats : List Beat)
    (deliver : Beat → Bool) :
    (send_beat_to_user db user_id beats deliver).2 =
      (sendBeats user_id deliver beats db).2 := by
  unfold send_beat_to_user
  dsimp only
  split
  · rfl
  · split
    · rfl
    · rfl

/-- C8 (confirmed): when some deliveries of a batch succeed and some fail,
every beat is still attempted (the success count is the full count of
deliverable beats), the result is the partial outcome, each delivered
exclusive beat held by the buyer has its reservation cleared, and the row
of each failed beat is left untouched. -/
theorem c8_partial_delivery (db : DB) (user_id : Int) (beats : List Beat)
    (deliver : Beat → Bool) (hnd : (beats.map Beat.id).Nodup)
    (hsome : ∃ b ∈ beats, deliver b = true)
    (hfail : ∃ b ∈ beats, deliver b = false) :
    (send_beat_to_user db user_id beats deliver).1 = "partial" ∧
    (sendBeats user_id deliver beats db).1.1 = beats.countP deliver ∧
    (∀ b ∈ beats, deliver b = false →
      findById (send_beat_to_user db user_id beats deliver).2 b.id =
        findById db b.id) ∧
    (∀ b ∈ beats, deliver b = true → (b.is_exclusive == 1) = true →
      ∀ c, findById db b.id = some c →
        c.reserved_by_user_id = some user_id →
        findById (send_beat_to_user db user_id beats deliver).2 b.id =
          some (clearFields c)) := by
  have hpos : 0 < beats.countP deliver := by
    rw [List.countP_pos_iff]
    rcases hsome with ⟨b, hb, hd⟩
    exact ⟨b, hb, hd⟩
  have hlt : beats.countP deliver < beats.length := by
    rcases hfail with ⟨b, hb, hd⟩
    have hne : beats.countP deliver ≠ beats.length := by
      intro h
      have := List.countP_eq_length.1 h b hb
      rw [hd] at this
      exact Bool.false_ne_true this
    exact Nat.lt_of_le_of_ne (List.countP_le_length deliver) hne
  refine ⟨?_, sendBeats_count user_id deliver beats db, ?_, ?_⟩
  · unfold send_beat_to_user
    dsimp only
    rw [sendBeats_count]
    have h0 : (beats.countP deliver == 0) = false := by
      simpa using Nat.pos_iff_ne_zero.1 hpos
    rw [h0]
    simp [hlt]
  · intro b hb hd
    rw [send_beat_to_user_db]
    apply sendBeats_find_untouched
    intro x hx hxd _ hxi
    have hxb : x = b := List.inj_on_of_nodup_map hnd hx hb hxi
    rw [hxb, hd] at hxd
    exact Bool.false_ne_true hxd
  · intro b hb hd hex c hc hcu
    rw [send_beat_to_user_db]
    exact sendBeats_releases_delivered user_id deliver beats db b c hnd hb
      hd hex hc hcu

/-- C8 witness: a two-beat batch held by buyer 7 where beat 1 delivers and
beat 2 fails: the outcome is partial, both beats were attempted, beat 1's
hold is cleared and beat 2's row is untouched. -/
theorem c8_partial_delivery_witness :
    (send_beat_to_user
        [⟨1, "A", "a.wav", 1, some 7, some 0, some 10⟩,
         ⟨2, "C", "c.wav", 1, some 7, some 0, some 10⟩] 7
        [⟨1, "A", "a.wav", 1, some 7, some 0, some 10⟩,
         ⟨2, "C", "c.wav", 1, some 7, some 0, some 10⟩]
        (fun b => b.id == 1)).1 = "partial" ∧
    (sendBeats 7 (fun b => b.id == 1)
        [⟨1, "A", "a.wav", 1, some 7, some 0, some 10⟩,
         ⟨2, "C", "c.wav", 1, some 7, some 0, some 10⟩]
        [⟨1, "A", "a.wav", 1, some 7, some 0, some 10⟩,
         ⟨2, "C", "c.wav", 1, some 7, some 0, some 10⟩]).1.1 =
      ([⟨1, "A", "a.wav", 1, some 7, some 0, some 10⟩,
        ⟨2, "C", "c.wav", 1, some 7, some 0, some 10⟩] :
          List Beat).countP (fun b => b.id == 1) ∧
    (∀ b ∈ ([⟨1, "A", "a.wav", 1, some 7, some 0, some 10⟩,
        ⟨2, "C", "c.wav", 1, some 7, some 0, some 10⟩] : List Beat),
      (fun b => b.id == 1) b = false →
      findById (send_beat_to_user
          [⟨1, "A", "a.wav", 1, some 7, some 0, some 10⟩,
           ⟨2, "C", "c.wav", 1, some 7, some 0, some 10⟩] 7
          [⟨1, "A", "a.wav", 1, some 7, some 0, some 10⟩,
           ⟨2, "C", "c.wav", 1, some 7, some 0, some 10⟩]
          (fun b => b.id == 1)).2 b.id =
        findById [⟨1, "A", "a.wav", 1, some 7, some 0, some 10⟩,
          ⟨2, "C", "c.wav", 1, some 7, some 0, some 10⟩] b.id) ∧
    (∀ b ∈ ([⟨1, "A", "a.wav", 1, some 7, some 0, some 10⟩,
        ⟨2, "C", "c.wav", 1, some 7, some 0, some 10⟩] : List Beat),
      (fun b => b.id == 1) b = true → (b.is_exclusive == 1) = true →
      ∀ c, findById [⟨1, "A", "a.wav", 1, some 7, some 0, some 10⟩,
          ⟨2, "C", "c.wav", 1, some 7, some 0, some 10⟩] b.id = some c →
        c.reserved_by_user_id = some 7 →
        findById (send_beat_to_user
            [⟨1, "A", "a.wav", 1, some 7, some 0, some 10⟩,
             ⟨2, "C", "c.wav", 1, some 7, some 0, some 10⟩] 7
            [⟨1, "A", "a.wav", 1, some 7, some 0, some 10⟩,
             ⟨2, "C", "c.wav", 1, some 7, some 0, some 10⟩]
            (fun b => b.id == 1)).2 b.id = some (clearFields c)) :=
  c8_partial_delivery
    [⟨1, "A", "a.wav", 1, some 7, some 0, some 10⟩,
     ⟨2, "C", "c.wav", 1, some 7, some 0, some 10⟩] 7
    [⟨1, "A", "a.wav", 1, some 7, some 0, some 10⟩,
     ⟨2, "C", "c.wav", 1, some 7, some 0, some 10⟩]
    (fun b => b.id == 1) (by decide)
    ⟨⟨1, "A", "a.wav", 1, some 7, some 0, some 10⟩, by decide, by decide⟩
    ⟨⟨2, "C", "c.wav", 1, some 7, some 0, some 10⟩, by decide, by decide⟩

/-! Claim C2: at most one active hold per holder. -/

/-- A sequence of single-item acquire operations, each a tuple
`(beat_id, user_id, reservation_minutes, now)`, applied in order. -/
def applySingleAcquires (ops : List (Nat × Int × Int × Int)) (db : DB) :
    DB :=
  ops.foldl
    (fun d op => (reserve_exclusive_beat d op.1 op.2.1 op.2.2.1 op.2.2.2).2)
    db

/-- Row well-formedness: the holder column and the expiry column are set
together (every write in the source sets or clears both). -/
def WFrow (b : Beat) : Prop :=
  b.reserved_by_user_id.isSome = b.reservation_expires_at.isSome

/-- Number of rows whose holder column names `u`. -/
def resCount (u : Int) (db : DB) : Nat :=
  db.countP (fun b => b.reserved_by_user_id == some u)

/-- State invariant of the single-item hold manager: rows are well-formed
and every holder is named by at most one row. -/
def HoldInv (db : DB) : Prop :=
  (∀ b ∈ db, WFrow b) ∧ ∀ u : Int, resCount u db ≤ 1

/-- Row well-formedness is preserved by an `updateFirst` whose function
yields well-formed rows on the rows it can touch. -/
theorem wf_updateFirst (p : Beat → Bool) (f : Beat → Beat) (l : DB)
    (hf : ∀ x, p x = true → WFrow x → WFrow (f x))
    (hl : ∀ x ∈ l, WFrow x) : ∀ x ∈ updateFirst p f l, WFrow x := by
  induction l with
  | nil => intro x hx; cases hx
  | cons b rest ih =>
    by_cases hp : p b = true
    · rw [updateFirst_cons_pos hp]
      intro x hx
      rcases List.mem_cons.1 hx with rfl | hx'
      · exact hf b hp (hl b (List.mem_cons_self b rest))
      · exact hl x (List.mem_cons_of_mem b hx')
    · rw [updateFirst_cons_neg (eq_false_of_ne_true hp)]
      intro x hx
      rcases List.mem_cons.1 hx with rfl | hx'
      · exact hl x (List.mem_cons_self x rest)
      · exact ih (fun y hy => hl y (List.mem_cons_of_mem b hy)) x hx'

/-- On a well-formed row the existing-reservation query predicate reduces
to the holder-column test. -/
theorem userResQ_eq_of_wf (u : Int) (x : Beat) (hx : WFrow x) :
    userResQ u x = (x.reserved_by_user_id == some u) := by
  unfold userResQ
  cases hr : x.reserved_by_user_id with
  | none => simp
  | some v =>
    have he : x.reservation_expires_at.isSome = true := by
      rw [← hx, hr]
      rfl
    simp [he]

/-- The write phase of the single-item acquire preserves the hold
invariant, provided the acquiring user currently holds nothing. -/
theorem holdinv_finishReserve (db : DB) (beat_id : Nat) (u : Int)
    (m now : Int) (hwf : ∀ x ∈ db, WFrow x)
    (hcnt : ∀ v : Int, resCount v db ≤ 1) (hzero : resCount u db = 0) :
    HoldInv (finishReserve db beat_id u m now).2 := by
  have hset_wf : ∀ x, WFrow (setReservation u now m x) := fun x => rfl
  have hclear_wf : ∀ x, WFrow (clearFields x) := fun x => rfl
  have hset_inv : ∀ (l : DB), (∀ x ∈ l, WFrow x) →
      (∀ v : Int, resCount v l ≤ 1) → resCount u l = 0 →
      HoldInv (updateFirst (fun b => b.id == beat_id)
        (setReservation u now m) l) := by
    intro l hwfl hcntl hzerol
    constructor
    · exact wf_updateFirst _ _ l (fun x _ _ => hset_wf x) hwfl
    · intro v
      by_cases hv : v = u
      · have hle := countP_updateFirst_le_succ (fun b => b.id == beat_id)
          (fun b => b.reserved_by_user_id == some v)
          (setReservation u now m) l
        have hz : resCount v l = 0 := by rw [hv]; exact hzerol
        unfold resCount at hz ⊢
        omega
      · have hk := countP_updateFirst_of_kills (fun b => b.id == beat_id)
          (fun b => b.reserved_by_user_id == some v)
          (setReservation u now m) l
          (fun x => by simp only [setReservation]; simp; omega)
        unfold resCount at hcntl ⊢
        exact Nat.le_trans hk (hcntl v)
  unfold finishReserve
  cases hfb : findById db beat_id with
  | none => exact ⟨hwf, hcnt⟩
  | some beat =>
    dsimp only
    cases hr : beat.reserved_by_user_id with
    | some r =>
      cases he : beat.reservation_expires_at with
      | some e =>
        dsimp only
        by_cases hlt : now < e
        · rw [if_pos hlt]
          by_cases hru : (r != u) = true
          · rw [if_pos hru]
            exact ⟨hwf, hcnt⟩
          · exfalso
            have hrequ : r = u := by
              have : ¬ r ≠ u := fun hne => hru (bne_iff_ne.2 hne)
              omega
            have hmem := List.mem_of_find?_eq_some hfb
            have : 0 < resCount u db := by
              unfold resCount
              rw [List.countP_pos_iff]
              exact ⟨beat, hmem, by simp [hr, hrequ]⟩
            omega
        · rw [if_neg hlt]
          have hdb1wf : ∀ x ∈ updateFirst (fun b => b.id == beat_id)
              clearFields db, WFrow x :=
            wf_updateFirst _ _ db (fun x _ _ => hclear_wf x) hwf
          have hdb1cnt : ∀ v : Int, resCount v
              (updateFirst (fun b => b.id == beat_id) clearFields db) ≤ 1 :=
            fun v => Nat.le_trans
              (countP_updateFirst_of_kills _ _ _ db (fun x => by
                simp [clearFields]))
              (hcnt v)
          have hdb1zero : resCount u
              (updateFirst (fun b => b.id == beat_id) clearFields db) = 0 := by
            have := countP_updateFirst_of_kills (fun b => b.id == beat_id)
              (fun b => b.reserved_by_user_id == some u) clearFields db
              (fun x => by simp [clearFields])
            unfold resCount at hzero ⊢
            omega
          exact hset_inv _ hdb1wf hdb1cnt hdb1zero
      | none => exact hset_inv db hwf hcnt hzero
    | none =>
      cases he : beat.reservation_expires_at with
      | some e => exact hset_inv db hwf hcnt hzero
      | none => exact hset_inv db hwf hcnt hzero

/-- The single-item acquire preserves the hold invariant. -/
theorem holdinv_reserve (db : DB) (beat_id : Nat) (u : Int) (m now : Int)
    (h : HoldInv db) :
    HoldInv (reserve_exclusive_beat db beat_id u m now).2 := by
  obtain ⟨hwf, hcnt⟩ := h
  have hpq : ∀ x ∈ db, userResQ u x =
      (x.reserved_by_user_id == some u) :=
    fun x hx => userResQ_eq_of_wf u x (hwf x hx)
  unfold reserve_exclusive_beat
  cases hfb : findById db beat_id with
  | none => exact ⟨hwf, hcnt⟩
  | some beat0 =>
    dsimp only
    by_cases hx : (beat0.is_exclusive != 1) = true
    · rw [if_pos hx]
      exact ⟨hwf, hcnt⟩
    · rw [if_neg hx]
      cases hfind : db.find? (userResQ u) with
      | none =>
        dsimp only
        apply holdinv_finishReserve db beat_id u m now hwf hcnt
        unfold resCount
        rw [List.countP_eq_zero]
        intro x hxm
        have := List.find?_eq_none.1 hfind x hxm
        rw [hpq x hxm] at this
        simpa using this
      | some ex =>
        have hqex := List.find?_some hfind
        dsimp only
        cases hexe : ex.reservation_expires_at with
        | none =>
          unfold userResQ at hqex
          rw [hexe] at hqex
          simp at hqex
        | some e2 =>
          dsimp only
          by_cases hlt : now < e2
          · rw [if_pos hlt]
            by_cases hid : (ex.id == beat_id) = true
            · rw [if_pos hid]
              dsimp only
              constructor
              · refine wf_updateFirst _ _ db ?_ hwf
                intro x hpx hwx
                unfold userResQ at hpx
                rw [Bool.and_eq_true] at hpx
                unfold WFrow at hwx ⊢
                have hxs : x.reserved_by_user_id.isSome = true := by
                  rcases hpx with ⟨h1, _⟩
                  cases hxr : x.reserved_by_user_id with
                  | none => rw [hxr] at h1; simp at h1
                  | some _ => rfl
                simp [renewRes, hxs]
              · intro v
                have hc := countP_updateFirst_of_stable (userResQ u)
                  (fun b => b.reserved_by_user_id == some v)
                  (renewRes now m) db (fun x => rfl)
                unfold resCount
                rw [hc]
                exact hcnt v
            · rw [if_neg hid]
              exact ⟨hwf, hcnt⟩
          · rw [if_neg hlt]
            have hdb1wf : ∀ x ∈ updateFirst (userResQ u) clearFields db,
                WFrow x :=
              wf_updateFirst _ _ db (fun x _ _ => rfl) hwf
            have hdb1cnt : ∀ v : Int, resCount v
                (updateFirst (userResQ u) clearFields db) ≤ 1 :=
              fun v => Nat.le_trans
                (countP_updateFirst_of_kills _ _ _ db
                  (fun x => by simp [clearFields]))
                (hcnt v)
            have hdb1zero : resCount u
                (updateFirst (userResQ u) clearFields db) = 0 := by
              unfold resCount
              exact countP_updateFirst_eq_zero (userResQ u)
                (fun b => b.reserved_by_user_id == some u) clearFields db
                hpq (fun x => by simp [clearFields]) (hcnt u)
            exact holdinv_finishReserve _ beat_id u m now hdb1wf hdb1cnt
              hdb1zero

/-- C2 (amended): starting from a reservation-free table, no sequence of
single-item acquire operations can give one holder unexpired reservations
on two different items at any instant. -/
theorem c2_single_acquires_one_hold_per_holder
    (ops : List (Nat × Int × Int × Int)) (db0 : DB)
    (h0 : ∀ b ∈ db0, b.reserved_by_user_id = none ∧
      b.reservation_expires_at = none) :
    ∀ u t : Int, (applySingleAcquires ops db0).countP
      (fun b => b.reserved_by_user_id == some u &&
        stillActive t b.reservation_expires_at) ≤ 1 := by
  have hinv0 : HoldInv db0 := by
    constructor
    · intro b hb
      unfold WFrow
      rw [(h0 b hb).1, (h0 b hb).2]
    · intro u
      unfold resCount
      have : db0.countP (fun b => b.reserved_by_user_id == some u) = 0 := by
        rw [List.countP_eq_zero]
        intro b hb
        simp [(h0 b hb).1]
      omega
  have hinv : HoldInv (applySingleAcquires ops db0) := by
    clear h0
    induction ops generalizing db0 with
    | nil => exact hinv0
    | cons op rest ih =>
      unfold applySingleAcquires
      rw [List.foldl_cons]
      exact ih _ (holdinv_reserve db0 op.1 op.2.1 op.2.2.1 op.2.2.2 hinv0)
  intro u t
  refine Nat.le_trans (List.countP_mono_left ?_) (hinv.2 u)
  intro b _ hb
  rw [Bool.and_eq_true] at hb
  exact hb.1

/-- C2 counterexample: a bundle with two exclusive members grants user 5
two simultaneous unexpired reservations in one bundle acquisition, so the
per-holder at-most-one invariant fails as stated for the bundle path. -/
theorem c2_bundle_grants_two_holds :
    (reserve_bundle_exclusive_beats
        [⟨1, "A", "a.wav", 1, none, none, none⟩,
         ⟨2, "C", "c.wav", 1, none, none, none⟩]
        [⟨1, "B1", 1⟩] [⟨1, 1⟩, ⟨1, 2⟩] 1 5 10 0).1.1 = true ∧
    ((reserve_bundle_exclusive_beats
        [⟨1, "A", "a.wav", 1, none, none, none⟩,
         ⟨2, "C", "c.wav", 1, none, none, none⟩]
        [⟨1, "B1", 1⟩] [⟨1, 1⟩, ⟨1, 2⟩] 1 5 10 0).2.countP
      (fun b => b.reserved_by_user_id == some 5 &&
        stillActive 0 b.reservation_expires_at)) = 2 := by
  constructor
  · decide
  · decide

/-- C2 witness: two single-item acquires by users 5 and 9 on a two-row
table, checked for holder 5 at time 0. -/
theorem c2_single_acquires_one_hold_per_holder_witness :
    (applySingleAcquires [(1, 5, 10, 0), (2, 9, 10, 0)]
        [⟨1, "A", "a.wav", 1, none, none, none⟩,
         ⟨2, "C", "c.wav", 1, none, none, none⟩]).countP
      (fun b => b.reserved_by_user_id == some 5 &&
        stillActive 0 b.reservation_expires_at) ≤ 1 :=
  c2_single_acquires_one_hold_per_holder [(1, 5, 10, 0), (2, 9, 10, 0)]
    [⟨1, "A", "a.wav", 1, none, none, none⟩,
     ⟨2, "C", "c.wav", 1, none, none, none⟩] (by decide) 5 0
